import Mathlib

set_option maxRecDepth 10000

/-!
Verification of the PixelVault image-gallery core: the hashids identifier
codec (`src/backend/lib/hashids.ts` and the `hashids` npm library it wraps),
the image derivative generator (`src/backend/lib/image-processing.ts`), and
the serving/download dispatcher
(`src/frontend/app/api/images/[id]/original/route.ts` and the unnamed
download route).  Machine integers are modelled as unbounded `Nat`/`Int`;
image bytes as `List Nat`; JavaScript strings as `List Char`.
-/

namespace Hashids

/-- Swap the entries at positions `i` and `j` of a list; out-of-range
indices leave the list unchanged (the library's shuffle only ever swaps
in-range positions). -/
def listSwap (l : List Char) (i j : Nat) : List Char :=
  if i < l.length ∧ j < l.length then
    (l.set i (l.getD j ' ')).set j (l.getD i ' ')
  else l

/-- The loop of the hashids consistent shuffle: the current swap index
counts down from `l.length - 1` to `1`, `v` indexes into the salt
(cyclically) and `p` accumulates salt character codes, exactly as in the
library's `shuffle(alphabet, salt)`. -/
def shuffleGo (salt : List Char) : Nat → Nat → Nat → List Char → List Char
  | 0, _, _, l => l
  | i + 1, v, p, l =>
    let vm := v % salt.length
    let c := (salt.getD vm ' ').toNat
    let p' := p + c
    let j := (c + vm + p') % (i + 1)
    shuffleGo salt i (v + 1) p' (listSwap l (i + 1) j)

/-- Hashids consistent shuffle: a deterministic salt-driven permutation of
`l`; with an empty salt the list is returned unchanged. -/
def shuffle (l salt : List Char) : List Char :=
  if salt.length = 0 then l else shuffleGo salt (l.length - 1) 0 0 l

/-- The do-while loop of the library's `toAlphabet`: builds the
base-`alph.length` digits of `n`, most significant first, in front of
`acc`.  `fuel` bounds the recursion; `n + 1` is enough fuel whenever the
alphabet has at least two characters. -/
def toAlphabetGo (alph : List Char) : Nat → Nat → List Char → List Char
  | 0, _, acc => acc
  | fuel + 1, n, acc =>
    let acc' := alph.getD (n % alph.length) ' ' :: acc
    let n' := n / alph.length
    if n' = 0 then acc' else toAlphabetGo alph fuel n' acc'

/-- `toAlphabet(number, alphabet)`: the base-`alph.length` digit string of
`n` over the alphabet (at least one character, even for `n = 0`). -/
def toAlphabet (n : Nat) (alph : List Char) : List Char :=
  toAlphabetGo alph (n + 1) n []

/-- `fromAlphabet(chars, alphabet)`: read a digit string back as a number
via `indexOf`; `none` models the library throwing on a character that is
not in the alphabet. -/
def fromAlphabet (s : List Char) (alph : List Char) : Option Nat :=
  s.foldlM (fun carry c => (alph.indexOf? c).map (fun i => carry * alph.length + i)) 0

/-- Default hashids alphabet (62 alphanumeric characters). -/
def DEFAULT_ALPHABET : List Char :=
  "abcdefghijklmnopqrstuvwxyzABCDEFGHIJKLMNOPQRSTUVWXYZ1234567890".toList

/-- Default hashids separator characters. -/
def DEFAULT_SEPS : List Char := "cfhistuCFHISTU".toList

/-- The state a constructed `Hashids` instance carries: the salt, the
minimum output length, and the processed alphabet / separators / guards. -/
structure Ctx where
  salt : List Char
  minLength : Nat
  alphabet : List Char
  seps : List Char
  guards : List Char
  deriving Repr, DecidableEq

/-- The `Hashids` constructor: removes separators from the alphabet,
shuffles separators with the salt, rebalances them when the
alphabet/separator ratio exceeds 3.5, shuffles the alphabet, and carves
the guards off the alphabet (or off the separators when the alphabet has
fewer than three characters).  The constructor's minimum-alphabet-length
check always passes for the default 62-character alphabet and is not
modelled. -/
def makeCtx (salt : List Char) (minLength : Nat) (alphabet0 seps0 : List Char) : Ctx :=
  let uniqueAlphabet := alphabet0.eraseDups
  let alph1 := uniqueAlphabet.filter (fun c => !seps0.contains c)
  let seps1 := seps0.filter (fun c => uniqueAlphabet.contains c)
  let seps2 := shuffle seps1 salt
  let needAdjust := seps2.length = 0 ∨ alph1.length * 2 > seps2.length * 7
  let sepsLength := (alph1.length * 2 + 6) / 7
  let adjusted :=
    if needAdjust ∧ seps2.length < sepsLength then
      let diff := sepsLength - seps2.length
      (alph1.drop diff, seps2 ++ alph1.take diff)
    else (alph1, seps2)
  let alph3 := shuffle adjusted.1 salt
  let guardCount := (alph3.length + 11) / 12
  if alph3.length < 3 then
    { salt := salt, minLength := minLength,
      alphabet := alph3, seps := adjusted.2.drop guardCount,
      guards := adjusted.2.take guardCount }
  else
    { salt := salt, minLength := minLength,
      alphabet := alph3.drop guardCount, seps := adjusted.2,
      guards := alph3.take guardCount }

/-- The `numbersIdInt` accumulator of `_encode`:
`sum of (numbers[i] % (i + 100))`. -/
def numbersIdInt (numbers : List Nat) : Nat :=
  (numbers.enum.map (fun p => p.2 % (p.1 + 100))).sum

/-- The per-number loop of `_encode`: returns the accumulated output
characters together with the final alphabet. -/
def encodeGo (ctx : Ctx) (lottery : Char) :
    List Nat → Nat → List Char → List Char → List Char × List Char
  | [], _, alph, ret => (ret, alph)
  | n :: more, i, alph, ret =>
    let buffer := (lottery :: ctx.salt ++ alph).take alph.length
    let alph' := shuffle alph buffer
    let last := toAlphabet n alph'
    let ret' := ret ++ last
    let ret'' :=
      if more = [] then ret'
      else
        let extraNumber := n % ((last.headD ' ').toNat + i)
        ret' ++ [ctx.seps.getD (extraNumber % ctx.seps.length) ' ']
    encodeGo ctx lottery more (i + 1) alph' ret''

/-- The guard stage of `_encode`: when the output is shorter than the
minimum length, prepend a guard character (and, if still short, also
append one). -/
def addGuards (ctx : Ctx) (nid : Nat) (ret : List Char) : List Char :=
  if ret.length < ctx.minLength then
    let g1 := ctx.guards.getD ((nid + (ret.headD ' ').toNat) % ctx.guards.length) ' '
    let ret1 := g1 :: ret
    if ret1.length < ctx.minLength then
      let g2 := ctx.guards.getD ((nid + (ret1.getD 2 ' ').toNat) % ctx.guards.length) ' '
      ret1 ++ [g2]
    else ret1
  else ret

/-- The padding while-loop of `_encode`: keep wrapping the output in
halves of the reshuffled alphabet (trimming the centre when the result
overshoots) until the minimum length is reached.  `fuel` bounds the loop;
`minLength` iterations always suffice for a non-empty alphabet. -/
def padGo (ctx : Ctx) (half : Nat) : Nat → List Char → List Char → List Char
  | 0, _, ret => ret
  | fuel + 1, alph, ret =>
    if ret.length < ctx.minLength then
      let alph' := shuffle alph alph
      let ret1 := alph'.drop half ++ ret ++ alph'.take half
      let ret2 :=
        if ctx.minLength < ret1.length then
          (ret1.drop ((ret1.length - ctx.minLength) / 2)).take ctx.minLength
        else ret1
      padGo ctx half fuel alph' ret2
    else ret

/-- `encode(...numbers)` (public wrapper plus `_encode`): empty input gives
the empty string; numbers are modelled as unbounded naturals. -/
def hashidsEncode (ctx : Ctx) (numbers : List Nat) : List Char :=
  if numbers = [] then []
  else
    let nid := numbersIdInt numbers
    let lottery := ctx.alphabet.getD (nid % ctx.alphabet.length) ' '
    let r := encodeGo ctx lottery numbers 0 ctx.alphabet [lottery]
    padGo ctx (r.2.length / 2) ctx.minLength r.2 (addGuards ctx nid r.1)

/-- Split a character list at every occurrence of a character from `cs`,
keeping empty segments, as `String.split` on a character-class regular
expression does in the library's `_decode`. -/
def splitOnChars (cs : List Char) : List Char → List (List Char)
  | [] => [[]]
  | c :: rest =>
    if cs.contains c then [] :: splitOnChars cs rest
    else
      match splitOnChars cs rest with
      | [] => [[c]]
      | h :: t => (c :: h) :: t

/-- The per-subhash loop of `_decode`, threading the reshuffled alphabet. -/
def decodeGo (salt : List Char) (lottery : Char) :
    List (List Char) → List Char → Option (List Nat)
  | [], _ => some []
  | sub :: more, alph =>
    let buffer := (lottery :: salt ++ alph).take alph.length
    let alph' := shuffle alph buffer
    match fromAlphabet sub alph' with
    | none => none
    | some v => (decodeGo salt lottery more alph').map (fun vs => v :: vs)

/-- `decode(id)` (public wrapper plus `_decode`): `none` models a thrown
exception (a character outside alphabet/guards/separators, which the
caller catches), `some []` the library's empty "invalid" result.  The final
guard re-encodes the candidate numbers and compares with the input. -/
def hashidsDecode (ctx : Ctx) (s : List Char) : Option (List Nat) :=
  if s = [] then some []
  else if s.all (fun c =>
      ctx.alphabet.contains c || ctx.guards.contains c || ctx.seps.contains c) then
    let parts := splitOnChars ctx.guards s
    let idx := if parts.length = 3 ∨ parts.length = 2 then 1 else 0
    let bd := parts.getD idx []
    if bd = [] then some []
    else
      let lottery := bd.headD ' '
      let subIds := splitOnChars ctx.seps bd.tail
      match decodeGo ctx.salt lottery subIds ctx.alphabet with
      | none => none
      | some nums => if hashidsEncode ctx nums = s then some nums else some []
  else none

end Hashids

namespace PixelVault

open Hashids

/-- The salt `src/backend/lib/hashids.ts` uses when `HASHIDS_SALT` is not
set in the environment. -/
def SALT : List Char := "pixelvault-secret-salt-change-in-production".toList

/-- `MIN_LENGTH` from `src/backend/lib/hashids.ts`. -/
def MIN_LENGTH : Nat := 6

/-- The process-wide `Hashids` instance of `src/backend/lib/hashids.ts`. -/
def pvCtx : Ctx := makeCtx SALT MIN_LENGTH DEFAULT_ALPHABET DEFAULT_SEPS

/-- `encodeId` from `src/backend/lib/hashids.ts`: throws on a non-positive
id (`!id || id <= 0`), otherwise returns `hashids.encode(id)`. -/
def encodeId (id : Int) : Except String (List Char) :=
  if id ≤ 0 then .error "Invalid ID: must be a positive number"
  else .ok (hashidsEncode pvCtx [id.toNat])

/-- `decodeId` from `src/backend/lib/hashids.ts`: `none` for the empty
string, a thrown decode exception, or an empty decode result; otherwise
the first decoded number. -/
def decodeId (hash : List Char) : Option Nat :=
  if hash = [] then none
  else
    match hashidsDecode pvCtx hash with
    | none => none
    | some [] => none
    | some (d :: _) => some d

end PixelVault

namespace Hashids

/-- Replacing the `k`-th entry of `t` by `a` while moving the old entry to
the front permutes `a :: t`. -/
theorem getD_cons_set_perm {α : Type} (d : α) :
    ∀ (t : List α) (k : Nat) (a : α), k < t.length →
      List.Perm (t.getD k d :: t.set k a) (a :: t)
  | b :: u, 0, a, _ => by simpa using List.Perm.swap a b u
  | b :: u, k + 1, a, h => by
    have ih := getD_cons_set_perm d u k a (by simpa using h)
    simp only [List.getD_cons_succ, List.set_cons_succ]
    exact ((List.Perm.swap b (u.getD k d) (u.set k a)).trans (ih.cons b)).trans
      (List.Perm.swap a b u)

/-- Swapping two in-range entries of a list permutes it. -/
theorem set_set_swap_perm {α : Type} (d : α) :
    ∀ (l : List α) (i j : Nat), i < l.length → j < l.length →
      List.Perm ((l.set i (l.getD j d)).set j (l.getD i d)) l
  | a :: t, 0, 0, _, _ => by simp
  | a :: t, 0, j + 1, _, hj => by
    simpa using getD_cons_set_perm d t j a (by simpa using hj)
  | a :: t, i + 1, 0, hi, _ => by
    simpa using getD_cons_set_perm d t i a (by simpa using hi)
  | a :: t, i + 1, j + 1, hi, hj => by
    simpa using (set_set_swap_perm d t i j (by simpa using hi) (by simpa using hj)).cons a

theorem listSwap_perm (l : List Char) (i j : Nat) : List.Perm (listSwap l i j) l := by
  unfold listSwap
  split
  case isTrue h => exact set_set_swap_perm ' ' l i j h.1 h.2
  case isFalse => exact List.Perm.refl l

theorem shuffleGo_perm (salt : List Char) :
    ∀ (i v p : Nat) (l : List Char), List.Perm (shuffleGo salt i v p l) l
  | 0, _, _, l => List.Perm.refl l
  | i + 1, v, p, l => by
    rw [shuffleGo]
    exact (shuffleGo_perm salt i (v + 1) _ _).trans (listSwap_perm l (i + 1) _)

theorem shuffle_perm (l salt : List Char) : List.Perm (shuffle l salt) l := by
  unfold shuffle
  split
  · exact List.Perm.refl l
  · exact shuffleGo_perm salt _ 0 0 l

theorem shuffle_length (l salt : List Char) : (shuffle l salt).length = l.length :=
  (shuffle_perm l salt).length_eq

theorem shuffle_nodup (l salt : List Char) (h : l.Nodup) : (shuffle l salt).Nodup :=
  ((shuffle_perm l salt).nodup_iff).mpr h

theorem mem_shuffle_iff (l salt : List Char) (c : Char) : c ∈ shuffle l salt ↔ c ∈ l :=
  (shuffle_perm l salt).mem_iff

end Hashids

namespace Hashids

theorem getD_mem {α : Type} (l : List α) (i : Nat) (d : α) (h : i < l.length) :
    l.getD i d ∈ l := by
  simp [List.getD_eq_getElem?_getD, List.getElem?_eq_getElem h]

theorem indexOf?_getD (d : Char) :
    ∀ (l : List Char) (i : Nat), l.Nodup → i < l.length →
      l.indexOf? (l.getD i d) = some i
  | a :: t, 0, _, _ => by simp [List.indexOf?_cons]
  | a :: t, i + 1, hn, h => by
    have hi : i < t.length := by simpa using h
    have ha : a ∉ t := (List.nodup_cons.mp hn).1
    have hne : (a == t.getD i d) = false := by
      apply beq_eq_false_iff_ne.mpr
      intro he
      exact ha (he ▸ getD_mem t i d hi)
    rw [List.getD_cons_succ, List.indexOf?_cons, hne,
      indexOf?_getD d t i (List.nodup_cons.mp hn).2 hi]
    simp

theorem toAlphabetGo_append (alph : List Char) :
    ∀ (fuel n : Nat) (acc : List Char),
      toAlphabetGo alph fuel n acc = toAlphabetGo alph fuel n [] ++ acc
  | 0, _, _ => rfl
  | fuel + 1, n, acc => by
    rw [toAlphabetGo, toAlphabetGo]
    by_cases h : n / alph.length = 0
    · simp [h]
    · simp only [if_neg h]
      rw [toAlphabetGo_append alph fuel _ (alph.getD (n % alph.length) ' ' :: acc),
          toAlphabetGo_append alph fuel _ [alph.getD (n % alph.length) ' ']]
      simp

theorem fromAlphabet_toAlphabetGo (alph : List Char) (h2 : 2 ≤ alph.length)
    (hn : alph.Nodup) :
    ∀ (fuel n : Nat), n < fuel →
      fromAlphabet (toAlphabetGo alph fuel n []) alph = some n
  | 0, n, hlt => absurd hlt (Nat.not_lt_zero n)
  | fuel + 1, n, hlt => by
    have hL : 0 < alph.length := by omega
    rw [toAlphabetGo]
    by_cases h : n / alph.length = 0
    · have hnL : n < alph.length := by
        rcases Nat.lt_or_ge n alph.length with h' | h'
        · exact h'
        · exact absurd h (by
            have := Nat.div_le_div_right (c := alph.length) h'
            rw [Nat.div_self hL] at this
            omega)
      rw [if_pos h]
      unfold fromAlphabet
      simp only [List.foldlM_cons, List.foldlM_nil,
        indexOf?_getD ' ' alph (n % alph.length) hn (Nat.mod_lt n hL)]
      simp [Nat.mod_eq_of_lt hnL]
    · rw [if_neg h]
      have hge : alph.length ≤ n := by
        by_contra hc
        exact h (Nat.div_eq_of_lt (by omega))
      have hlt2 : n / alph.length < fuel := by
        have : n / alph.length < n := Nat.div_lt_self (by omega) h2
        omega
      rw [toAlphabetGo_append]
      unfold fromAlphabet
      rw [List.foldlM_append]
      have ih := fromAlphabet_toAlphabetGo alph h2 hn fuel (n / alph.length) hlt2
      unfold fromAlphabet at ih
      rw [ih]
      simp only [List.foldlM_cons, List.foldlM_nil,
        indexOf?_getD ' ' alph (n % alph.length) hn (Nat.mod_lt n hL)]
      simp [Nat.div_add_mod']

theorem fromAlphabet_toAlphabet (alph : List Char) (h2 : 2 ≤ alph.length)
    (hn : alph.Nodup) (n : Nat) :
    fromAlphabet (toAlphabet n alph) alph = some n :=
  fromAlphabet_toAlphabetGo alph h2 hn (n + 1) n (Nat.lt_succ_self n)

theorem toAlphabet_ne_nil (n : Nat) (alph : List Char) : toAlphabet n alph ≠ [] := by
  unfold toAlphabet
  rw [toAlphabetGo]
  by_cases h : n / alph.length = 0
  · simp [h]
  · rw [if_neg h, toAlphabetGo_append]
    simp

theorem toAlphabetGo_mem (alph : List Char) (hL : 0 < alph.length) :
    ∀ (fuel n : Nat) (acc : List Char), (∀ c ∈ acc, c ∈ alph) →
      ∀ c ∈ toAlphabetGo alph fuel n acc, c ∈ alph
  | 0, _, _, hacc => hacc
  | fuel + 1, n, acc, hacc => by
    rw [toAlphabetGo]
    have hd : alph.getD (n % alph.length) ' ' ∈ alph :=
      getD_mem alph _ ' ' (Nat.mod_lt n hL)
    by_cases h : n / alph.length = 0
    · rw [if_pos h]
      intro c hc
      rcases List.mem_cons.mp hc with h' | h'
      · exact h' ▸ hd
      · exact hacc c h'
    · rw [if_neg h]
      exact toAlphabetGo_mem alph hL fuel (n / alph.length) _ (by
        intro c hc
        rcases List.mem_cons.mp hc with h' | h'
        · exact h' ▸ hd
        · exact hacc c h')

theorem toAlphabet_mem (n : Nat) (alph : List Char) (hL : 0 < alph.length) :
    ∀ c ∈ toAlphabet n alph, c ∈ alph :=
  toAlphabetGo_mem alph hL (n + 1) n [] (by simp)

theorem splitOnChars_ne_nil (cs : List Char) : ∀ (s : List Char), splitOnChars cs s ≠ []
  | [] => by simp [splitOnChars]
  | c :: rest => by
    rw [splitOnChars]
    by_cases h : c ∈ cs
    · simp [h]
    · rcases he : splitOnChars cs rest with _ | ⟨hh, tt⟩
      · exact absurd he (splitOnChars_ne_nil cs rest)
      · simp [h, he]

theorem splitOnChars_clean_append (cs : List Char) :
    ∀ (X Y : List Char), (∀ c ∈ X, c ∉ cs) →
      splitOnChars cs (X ++ Y) =
        (X ++ (splitOnChars cs Y).headD []) :: (splitOnChars cs Y).tail
  | [], Y, _ => by
    rcases he : splitOnChars cs Y with _ | ⟨h, t⟩
    · exact absurd he (splitOnChars_ne_nil cs Y)
    · simp [he]
  | x :: X, Y, hclean => by
    rw [List.cons_append, splitOnChars,
      splitOnChars_clean_append cs X Y (fun c hc => hclean c (by simp [hc]))]
    simp [hclean x (by simp)]

theorem splitOnChars_clean (cs s : List Char) (h : ∀ c ∈ s, c ∉ cs) :
    splitOnChars cs s = [s] := by
  have h' := splitOnChars_clean_append cs s [] h
  simpa [splitOnChars] using h'

theorem splitOnChars_cons_sep (cs : List Char) (g : Char) (s : List Char)
    (h : g ∈ cs) : splitOnChars cs (g :: s) = [] :: splitOnChars cs s := by
  rw [splitOnChars]
  simp [h]

end Hashids

namespace PixelVault

open Hashids

theorem pvAlphabet_length : pvCtx.alphabet.length = 44 := by decide

theorem pvAlphabet_nodup : pvCtx.alphabet.Nodup := by decide

theorem pvGuards_length : pvCtx.guards.length = 4 := by decide

theorem pvMinLength : pvCtx.minLength = 6 := by decide

theorem pvAlphabet_disjoint :
    ∀ c ∈ pvCtx.alphabet, c ∉ pvCtx.guards ∧ c ∉ pvCtx.seps := by decide

theorem pvGuards_getD_mem (k : Nat) :
    pvCtx.guards.getD (k % pvCtx.guards.length) ' ' ∈ pvCtx.guards :=
  getD_mem _ _ ' ' (Nat.mod_lt k (by rw [pvGuards_length]; omega))

end PixelVault

namespace Hashids

theorem numbersIdInt_single (n : Nat) : numbersIdInt [n] = n % 100 := by
  simp [numbersIdInt, List.enum]

theorem encodeGo_single (ctx : Ctx) (lottery : Char) (n i : Nat)
    (alph ret : List Char) :
    encodeGo ctx lottery [n] i alph ret =
      (ret ++ toAlphabet n (shuffle alph ((lottery :: ctx.salt ++ alph).take alph.length)),
       shuffle alph ((lottery :: ctx.salt ++ alph).take alph.length)) := by
  simp [encodeGo]

theorem padGo_done (ctx : Ctx) (half fuel : Nat) (alph ret : List Char)
    (h : ctx.minLength ≤ ret.length) : padGo ctx half fuel alph ret = ret := by
  cases fuel with
  | zero => rfl
  | succ fuel => rw [padGo, if_neg (by omega)]

theorem padGo_step (ctx : Ctx) (half fuel : Nat) (alph ret : List Char)
    (h : ret.length < ctx.minLength) :
    padGo ctx half (fuel + 1) alph ret =
      padGo ctx half fuel (shuffle alph alph)
        (if ctx.minLength <
            ((shuffle alph alph).drop half ++ ret ++ (shuffle alph alph).take half).length
         then (((shuffle alph alph).drop half ++ ret ++ (shuffle alph alph).take half).drop
            ((((shuffle alph alph).drop half ++ ret ++
               (shuffle alph alph).take half).length - ctx.minLength) / 2)).take ctx.minLength
         else (shuffle alph alph).drop half ++ ret ++ (shuffle alph alph).take half) := by
  rw [padGo, if_pos h]

theorem hashidsEncode_single (ctx : Ctx) (n : Nat) :
    hashidsEncode ctx [n] =
      padGo ctx
        ((shuffle ctx.alphabet
          ((ctx.alphabet.getD ((n % 100) % ctx.alphabet.length) ' ' :: ctx.salt ++
            ctx.alphabet).take ctx.alphabet.length)).length / 2)
        ctx.minLength
        (shuffle ctx.alphabet
          ((ctx.alphabet.getD ((n % 100) % ctx.alphabet.length) ' ' :: ctx.salt ++
            ctx.alphabet).take ctx.alphabet.length))
        (addGuards ctx (n % 100)
          (ctx.alphabet.getD ((n % 100) % ctx.alphabet.length) ' ' ::
            toAlphabet n (shuffle ctx.alphabet
              ((ctx.alphabet.getD ((n % 100) % ctx.alphabet.length) ' ' :: ctx.salt ++
                ctx.alphabet).take ctx.alphabet.length)))) := by
  rw [hashidsEncode, if_neg (by simp)]
  simp only [numbersIdInt_single, encodeGo_single]
  simp

end Hashids

namespace PixelVault

open Hashids

/-- If the guard-split of `s` selects the breakdown `lottery :: digits`,
the digits lie in the alphabet and evaluate back to `n` under the
lottery-shuffled alphabet, and `s` re-encodes from `[n]`, then decoding `s`
returns `[n]`. -/
theorem pv_decode_payload (s : List Char) (lottery : Char) (digits : List Char) (n : Nat)
    (hsne : ¬ s = [])
    (hvalid : ∀ c ∈ s, c ∈ pvCtx.alphabet ∨ c ∈ pvCtx.guards ∨ c ∈ pvCtx.seps)
    (hparts : (splitOnChars pvCtx.guards s).getD
      (if (splitOnChars pvCtx.guards s).length = 3 ∨
          (splitOnChars pvCtx.guards s).length = 2 then 1 else 0) [] = lottery :: digits)
    (hdigA : ∀ c ∈ digits, c ∈ pvCtx.alphabet)
    (hfrom : fromAlphabet digits (shuffle pvCtx.alphabet
      ((lottery :: pvCtx.salt ++ pvCtx.alphabet).take pvCtx.alphabet.length)) = some n)
    (henc : hashidsEncode pvCtx [n] = s) :
    hashidsDecode pvCtx s = some [n] := by
  have hall : s.all (fun c =>
      pvCtx.alphabet.contains c || pvCtx.guards.contains c || pvCtx.seps.contains c) = true := by
    rw [List.all_eq_true]
    intro c hc
    rcases hvalid c hc with h | h | h <;> simp [h]
  have hsub : splitOnChars pvCtx.seps digits = [digits] :=
    splitOnChars_clean _ _ (fun c hc => (pvAlphabet_disjoint c (hdigA c hc)).2)
  rw [hashidsDecode, if_neg hsne, if_pos hall]
  simp only [hparts, List.headD_cons, List.tail_cons]
  rw [if_neg (by simp)]
  rw [hsub]
  simp only [decodeGo, hfrom]
  simp [henc]

end PixelVault

namespace Hashids

theorem addGuards_none (ctx : Ctx) (nid : Nat) (ret : List Char)
    (h : ctx.minLength ≤ ret.length) : addGuards ctx nid ret = ret := by
  simp only [addGuards]
  rw [if_neg (by omega)]

theorem addGuards_one (ctx : Ctx) (nid : Nat) (ret : List Char)
    (hG : 0 < ctx.guards.length)
    (h1 : ret.length < ctx.minLength) (h2 : ctx.minLength ≤ ret.length + 1) :
    ∃ g1, g1 ∈ ctx.guards ∧ addGuards ctx nid ret = g1 :: ret := by
  simp only [addGuards]
  rw [if_pos h1, if_neg (by simp; omega)]
  exact ⟨_, getD_mem _ _ _ (Nat.mod_lt _ hG), rfl⟩

theorem addGuards_two (ctx : Ctx) (nid : Nat) (ret : List Char)
    (hG : 0 < ctx.guards.length) (h2 : ret.length + 1 < ctx.minLength) :
    ∃ g1 g2, g1 ∈ ctx.guards ∧ g2 ∈ ctx.guards ∧
      addGuards ctx nid ret = g1 :: ret ++ [g2] := by
  simp only [addGuards]
  rw [if_pos (by omega), if_pos (by simp; omega)]
  exact ⟨_, _, getD_mem _ _ _ (Nat.mod_lt _ hG), getD_mem _ _ _ (Nat.mod_lt _ hG), rfl⟩

theorem padGo_one_iter (ctx : Ctx) (alph ret : List Char) (fuel : Nat)
    (hfuel : 1 ≤ fuel)
    (hAL : alph.length = 44) (hmin : ctx.minLength = 6)
    (hr : ret.length = 4 ∨ ret.length = 5) :
    padGo ctx 22 fuel alph ret =
      (shuffle alph alph).drop 43 ++ ret ++ (shuffle alph alph).take (5 - ret.length) := by
  have hsl : (shuffle alph alph).length = 44 := by rw [shuffle_length, hAL]
  obtain ⟨fuel, rfl⟩ : ∃ k, fuel = k + 1 := ⟨fuel - 1, by omega⟩
  rw [padGo_step ctx 22 fuel alph ret (by omega)]
  rw [if_pos (by simp [hsl, hmin]; omega)]
  rcases hr with hr | hr
  · rw [padGo_done]
    · simp only [List.length_append, List.length_drop, List.length_take, hsl, hr, hmin]
      norm_num
      rw [List.drop_append_eq_append_drop, List.drop_append_eq_append_drop,
        List.take_append_eq_append_take, List.take_append_eq_append_take]
      simp [List.drop_drop, List.take_take, hsl, hr,
        List.take_of_length_le, List.drop_eq_nil_of_le]
    · simp [hsl, hr, hmin]
  · rw [padGo_done]
    · simp only [List.length_append, List.length_drop, List.length_take, hsl, hr, hmin]
      norm_num
      rw [List.drop_append_eq_append_drop, List.drop_append_eq_append_drop,
        List.take_append_eq_append_take, List.take_append_eq_append_take]
      simp [List.drop_drop, List.take_take, hsl, hr,
        List.take_of_length_le, List.drop_eq_nil_of_le]
    · simp [hsl, hr, hmin]

end Hashids

namespace Hashids

theorem splitOnChars_one_guard (cs : List Char) (g1 : Char) (P : List Char)
    (hg1 : g1 ∈ cs) (hP : ∀ c ∈ P, c ∉ cs) :
    splitOnChars cs (g1 :: P) = [[], P] := by
  rw [splitOnChars_cons_sep cs g1 P hg1, splitOnChars_clean cs P hP]

theorem splitOnChars_two_guards (cs : List Char) (g1 g2 : Char) (P T : List Char)
    (hg1 : g1 ∈ cs) (hg2 : g2 ∈ cs)
    (hP : ∀ c ∈ P, c ∉ cs) (hT : ∀ c ∈ T, c ∉ cs) :
    splitOnChars cs (g1 :: (P ++ [g2] ++ T)) = [[], P, T] := by
  have h3 : splitOnChars cs ([g2] ++ T) = [[], T] := by
    rw [List.singleton_append, splitOnChars_cons_sep cs g2 T hg2,
      splitOnChars_clean cs T hT]
  have h2 : splitOnChars cs (P ++ ([g2] ++ T)) = [P, T] := by
    rw [splitOnChars_clean_append cs P ([g2] ++ T) hP, h3]
    simp
  rw [List.append_assoc, splitOnChars_cons_sep cs g1 _ hg1, h2]

theorem splitOnChars_wrapped (cs : List Char) (x g1 g2 : Char) (P T : List Char)
    (hx : x ∉ cs) (hg1 : g1 ∈ cs) (hg2 : g2 ∈ cs)
    (hP : ∀ c ∈ P, c ∉ cs) (hT : ∀ c ∈ T, c ∉ cs) :
    splitOnChars cs (x :: g1 :: (P ++ [g2] ++ T)) = [[x], P, T] := by
  have h1 := splitOnChars_two_guards cs g1 g2 P T hg1 hg2 hP hT
  have h0 : splitOnChars cs ([x] ++ (g1 :: (P ++ [g2] ++ T))) = [[x], P, T] := by
    rw [splitOnChars_clean_append cs [x] _ (by simpa using hx), h1]
    simp
  simpa using h0

end Hashids

namespace PixelVault

open Hashids

theorem pv_roundtrip (n : Nat) :
    6 ≤ (hashidsEncode pvCtx [n]).length ∧
      hashidsDecode pvCtx (hashidsEncode pvCtx [n]) = some [n] := by
  obtain ⟨lot, hlotdef⟩ :
      ∃ l, pvCtx.alphabet.getD ((n % 100) % pvCtx.alphabet.length) ' ' = l := ⟨_, rfl⟩
  obtain ⟨alph1, halph1⟩ :
      ∃ a, shuffle pvCtx.alphabet
        ((lot :: pvCtx.salt ++ pvCtx.alphabet).take pvCtx.alphabet.length) = a := ⟨_, rfl⟩
  obtain ⟨digits, hdigits⟩ : ∃ d, toAlphabet n alph1 = d := ⟨_, rfl⟩
  have hlotA : lot ∈ pvCtx.alphabet := by
    rw [← hlotdef]
    exact getD_mem _ _ _ (by rw [pvAlphabet_length]; exact Nat.mod_lt _ (by omega))
  have hperm1 : List.Perm alph1 pvCtx.alphabet := halph1 ▸ shuffle_perm _ _
  have h1len : alph1.length = 44 := by rw [hperm1.length_eq, pvAlphabet_length]
  have h1nd : alph1.Nodup := hperm1.nodup_iff.mpr pvAlphabet_nodup
  have hdigA : ∀ c ∈ digits, c ∈ pvCtx.alphabet := by
    rw [← hdigits]
    exact fun c hc => hperm1.mem_iff.mp (toAlphabet_mem n alph1 (by omega) c hc)
  have hdigne : digits ≠ [] := by rw [← hdigits]; exact toAlphabet_ne_nil n alph1
  have hdl : 1 ≤ digits.length := List.length_pos.mpr hdigne
  have hfrom : fromAlphabet digits (shuffle pvCtx.alphabet
      ((lot :: pvCtx.salt ++ pvCtx.alphabet).take pvCtx.alphabet.length)) = some n := by
    rw [halph1, ← hdigits]
    exact fromAlphabet_toAlphabet alph1 (by omega) h1nd n
  have hmemP : ∀ c ∈ lot :: digits, c ∈ pvCtx.alphabet := by
    intro c hc
    rcases List.mem_cons.mp hc with h | h
    · exact h ▸ hlotA
    · exact hdigA c h
  have hcleanP : ∀ c ∈ lot :: digits, c ∉ pvCtx.guards :=
    fun c hc => (pvAlphabet_disjoint c (hmemP c hc)).1
  have henc : hashidsEncode pvCtx [n] =
      padGo pvCtx 22 pvCtx.minLength alph1
        (addGuards pvCtx (n % 100) (lot :: digits)) := by
    rw [hashidsEncode_single, hlotdef, halph1, hdigits, h1len]
  have hGpos : 0 < pvCtx.guards.length := by rw [pvGuards_length]; omega
  rcases Nat.lt_or_ge (digits.length + 1) 6 with hp | hp
  · -- short payload: one or two guards, possibly padding
    have h14 : digits.length = 1 ∨ digits.length = 2 ∨ digits.length = 3 ∨
        digits.length = 4 := by omega
    rcases h14 with hdl4 | hdl4 | hdl4 | hdl4
    · -- digits.length = 1 : two guards plus one padding iteration, extra char each side
      obtain ⟨g1, g2, hg1G, hg2G, hadd⟩ := addGuards_two pvCtx (n % 100) (lot :: digits)
        hGpos (by simp [pvMinLength, hdl4])
      have hrlen : (g1 :: (lot :: digits) ++ [g2]).length = 4 := by simp [hdl4]
      have hpad := padGo_one_iter pvCtx alph1 (g1 :: (lot :: digits) ++ [g2])
        pvCtx.minLength (by rw [pvMinLength]; omega) h1len pvMinLength (Or.inl hrlen)
      obtain ⟨x, hx⟩ : ∃ x, (shuffle alph1 alph1).drop 43 = [x] := by
        apply List.length_eq_one.mp
        rw [List.length_drop, shuffle_length, h1len]
      obtain ⟨y, hy⟩ : ∃ y, (shuffle alph1 alph1).take 1 = [y] := by
        apply List.length_eq_one.mp
        rw [List.length_take, shuffle_length, h1len]
        omega
      have hxA : x ∈ pvCtx.alphabet := by
        have : x ∈ (shuffle alph1 alph1).drop 43 := by rw [hx]; simp
        exact hperm1.mem_iff.mp ((mem_shuffle_iff alph1 alph1 x).mp
          (List.drop_subset _ _ this))
      have hyA : y ∈ pvCtx.alphabet := by
        have : y ∈ (shuffle alph1 alph1).take 1 := by rw [hy]; simp
        exact hperm1.mem_iff.mp ((mem_shuffle_iff alph1 alph1 y).mp
          (List.take_subset _ _ this))
      have hout : hashidsEncode pvCtx [n] =
          x :: g1 :: ((lot :: digits) ++ [g2] ++ [y]) := by
        rw [henc, hadd, hpad, hrlen, hx, hy]
        simp
      constructor
      · rw [hout]; simp [hdl4]
      · rw [hout]
        apply pv_decode_payload _ lot digits n (by simp) ?hvalid ?hparts hdigA hfrom
          hout
        case hvalid =>
          intro c hc
          rcases List.mem_cons.mp hc with h | hc
          · exact Or.inl (h ▸ hxA)
          rcases List.mem_cons.mp hc with h | hc
          · exact Or.inr (Or.inl (h ▸ hg1G))
          rcases List.mem_append.mp hc with hc | hc
          · rcases List.mem_append.mp hc with hc | hc
            · exact Or.inl (hmemP c hc)
            · exact Or.inr (Or.inl ((List.mem_singleton.mp hc) ▸ hg2G))
          · exact Or.inl ((List.mem_singleton.mp hc) ▸ hyA)
        case hparts =>
          rw [splitOnChars_wrapped pvCtx.guards x g1 g2 (lot :: digits) [y]
            ((pvAlphabet_disjoint x hxA).1) hg1G hg2G hcleanP
            (by intro c hc; simp at hc; exact (pvAlphabet_disjoint c (hc ▸ hyA)).1)]
          simp
    · -- digits.length = 2 : two guards plus one padding iteration, one extra char
      obtain ⟨g1, g2, hg1G, hg2G, hadd⟩ := addGuards_two pvCtx (n % 100) (lot :: digits)
        hGpos (by simp [pvMinLength, hdl4])
      have hrlen : (g1 :: (lot :: digits) ++ [g2]).length = 5 := by simp [hdl4]
      have hpad := padGo_one_iter pvCtx alph1 (g1 :: (lot :: digits) ++ [g2])
        pvCtx.minLength (by rw [pvMinLength]; omega) h1len pvMinLength (Or.inr hrlen)
      obtain ⟨x, hx⟩ : ∃ x, (shuffle alph1 alph1).drop 43 = [x] := by
        apply List.length_eq_one.mp
        rw [List.length_drop, shuffle_length, h1len]
      have hxA : x ∈ pvCtx.alphabet := by
        have : x ∈ (shuffle alph1 alph1).drop 43 := by rw [hx]; simp
        exact hperm1.mem_iff.mp ((mem_shuffle_iff alph1 alph1 x).mp
          (List.drop_subset _ _ this))
      have hout : hashidsEncode pvCtx [n] =
          x :: g1 :: ((lot :: digits) ++ [g2] ++ []) := by
        rw [henc, hadd, hpad, hrlen, hx]
        simp
      constructor
      · rw [hout]; simp [hdl4]
      · rw [hout]
        apply pv_decode_payload _ lot digits n (by simp) ?hvalid ?hparts hdigA hfrom
          hout
        case hvalid =>
          intro c hc
          rcases List.mem_cons.mp hc with h | hc
          · exact Or.inl (h ▸ hxA)
          rcases List.mem_cons.mp hc with h | hc
          · exact Or.inr (Or.inl (h ▸ hg1G))
          rcases List.mem_append.mp hc with hc | hc
          · rcases List.mem_append.mp hc with hc | hc
            · exact Or.inl (hmemP c hc)
            · exact Or.inr (Or.inl ((List.mem_singleton.mp hc) ▸ hg2G))
          · simp at hc
        case hparts =>
          rw [splitOnChars_wrapped pvCtx.guards x g1 g2 (lot :: digits) []
            ((pvAlphabet_disjoint x hxA).1) hg1G hg2G hcleanP (by simp)]
          simp
    · -- digits.length = 3 : two guards, no padding
      obtain ⟨g1, g2, hg1G, hg2G, hadd⟩ := addGuards_two pvCtx (n % 100) (lot :: digits)
        hGpos (by simp [pvMinLength, hdl4])
      have hout : hashidsEncode pvCtx [n] = g1 :: (lot :: digits) ++ [g2] := by
        rw [henc, hadd, padGo_done _ _ _ _ _ (by simp [pvMinLength, hdl4])]
      constructor
      · rw [hout]; simp [hdl4]
      · rw [hout]
        apply pv_decode_payload _ lot digits n (by simp) ?hvalid ?hparts hdigA hfrom
          hout
        case hvalid =>
          intro c hc
          rcases List.mem_cons.mp hc with h | hc
          · exact Or.inr (Or.inl (h ▸ hg1G))
          rcases List.mem_append.mp hc with hc | hc
          · exact Or.inl (hmemP c hc)
          · exact Or.inr (Or.inl ((List.mem_singleton.mp hc) ▸ hg2G))
        case hparts =>
          have hsh : splitOnChars pvCtx.guards (g1 :: ((lot :: digits) ++ [g2] ++ [])) =
              [[], lot :: digits, []] :=
            splitOnChars_two_guards pvCtx.guards g1 g2 (lot :: digits) []
              hg1G hg2G hcleanP (by simp)
          rw [show (g1 :: (lot :: digits) ++ [g2] : List Char) =
            g1 :: ((lot :: digits) ++ [g2] ++ []) by simp, hsh]
          simp
    · -- digits.length = 4 : one guard, no padding
      obtain ⟨g1, hg1G, hadd⟩ := addGuards_one pvCtx (n % 100) (lot :: digits)
        hGpos (by simp [pvMinLength, hdl4]) (by simp [pvMinLength, hdl4])
      have hout : hashidsEncode pvCtx [n] = g1 :: (lot :: digits) := by
        rw [henc, hadd, padGo_done _ _ _ _ _ (by simp [pvMinLength, hdl4])]
      constructor
      · rw [hout]; simp [hdl4]
      · rw [hout]
        apply pv_decode_payload _ lot digits n (by simp) ?hvalid ?hparts hdigA hfrom
          hout
        case hvalid =>
          intro c hc
          rcases List.mem_cons.mp hc with h | hc
          · exact Or.inr (Or.inl (h ▸ hg1G))
          · exact Or.inl (hmemP c hc)
        case hparts =>
          rw [splitOnChars_one_guard pvCtx.guards g1 (lot :: digits) hg1G hcleanP]
          simp
  · -- payload already long enough: no guards, no padding
    have haddg : addGuards pvCtx (n % 100) (lot :: digits) = lot :: digits :=
      addGuards_none _ _ _ (by simp [pvMinLength]; omega)
    have hout : hashidsEncode pvCtx [n] = lot :: digits := by
      rw [henc, haddg, padGo_done _ _ _ _ _ (by simp [pvMinLength]; omega)]
    constructor
    · rw [hout]; simp; omega
    · rw [hout]
      apply pv_decode_payload _ lot digits n (by simp)
        (fun c hc => Or.inl (hmemP c hc)) ?hparts hdigA hfrom hout
      case hparts =>
        rw [splitOnChars_clean _ _ hcleanP]
        simp

end PixelVault

namespace PixelVault

open Hashids

theorem decodeId_encode (n : Nat) : decodeId (hashidsEncode pvCtx [n]) = some n := by
  have h := pv_roundtrip n
  have hne : ¬ hashidsEncode pvCtx [n] = [] := by
    intro he
    rw [he] at h
    simp at h
  rw [decodeId, if_neg hne, h.2]

/-- C1: for every positive integer id, decoding the string produced by
encoding that id under the same salt and minimum-length configuration
yields the same id back: `decodeId (encodeId id) = id`. -/
theorem C1_decode_encode_roundtrip (id : Int) (hpos : 0 < id) :
    ∃ s, encodeId id = Except.ok s ∧ decodeId s = some id.toNat := by
  refine ⟨hashidsEncode pvCtx [id.toNat], ?_, decodeId_encode id.toNat⟩
  rw [encodeId, if_neg (by omega)]

/-- Witness for C1 at the concrete id 96. -/
theorem C1_witness : (0 : Int) < 96 ∧
    ∃ s, encodeId 96 = Except.ok s ∧ decodeId s = some (96 : Int).toNat :=
  ⟨by decide, C1_decode_encode_roundtrip 96 (by decide)⟩

/-- C3: `encodeId` raises an error exactly when its argument is not a
positive integer, and for every positive integer it returns, without
raising, a string of length at least the configured minimum
(`MIN_LENGTH = 6`). -/
theorem C3_encodeId_error_iff_and_min_length (id : Int) :
    ((∃ e, encodeId id = Except.error e) ↔ ¬ 0 < id) ∧
      (∀ s, encodeId id = Except.ok s → MIN_LENGTH ≤ s.length) ∧ MIN_LENGTH = 6 := by
  refine ⟨⟨?_, ?_⟩, ?_, rfl⟩
  · rintro ⟨e, he⟩ hpos
    rw [encodeId, if_neg (by omega)] at he
    exact absurd he (by simp)
  · intro hnpos
    exact ⟨_, by rw [encodeId, if_pos (by omega)]⟩
  · intro s hs
    by_cases hpos : 0 < id
    · rw [encodeId, if_neg (by omega)] at hs
      have hlen := (pv_roundtrip id.toNat).1
      have hse : hashidsEncode pvCtx [id.toNat] = s := by
        injection hs
      rw [← hse]
      exact hlen
    · rw [encodeId, if_pos (by omega)] at hs
      exact absurd hs (by simp)

/-- Witness for C3: a non-positive id errors, a positive id gives a string
of the minimum length. -/
theorem C3_witness :
    ((∃ e, encodeId (-3) = Except.error e) ↔ ¬ (0 : Int) < -3) ∧
      (∀ s, encodeId 96 = Except.ok s → MIN_LENGTH ≤ s.length) :=
  ⟨(C3_encodeId_error_iff_and_min_length (-3)).1,
    (C3_encodeId_error_iff_and_min_length 96).2.1⟩

end PixelVault

namespace PixelVault

open Hashids

/-- Value of a digit string read in base 10. -/
def plainDigitsValue (s : List Char) : Nat :=
  s.foldl (fun a c => a * 10 + (c.toNat - '0'.toNat)) 0

/-- JavaScript `parseInt(s, 10)`: skip leading whitespace, read an optional
sign, then the longest prefix of decimal digits; `none` models `NaN`. -/
def parseIntBase10 (s : List Char) : Option Int :=
  let s1 := s.dropWhile Char.isWhitespace
  let sign : Int := if s1.headD ' ' = '-' then -1 else 1
  let s2 := if s1.headD ' ' = '-' ∨ s1.headD ' ' = '+' then s1.tail else s1
  let ds := s2.takeWhile Char.isDigit
  if ds = [] then none
  else some (sign * (plainDigitsValue ds : Int))

/-- The dual-path identifier resolution used by every image endpoint
(`src/frontend/app/api/images/[id]/original/route.ts` lines 25-38, and the
identical blocks in the resized-download and metadata routes): try
`decodeId` first; if it yields `null`, fall back to `parseInt(id, 10)`
accepted only when positive; finally reject `!id || id <= 0`. -/
def resolveImageId (s : List Char) : Option Nat :=
  let idFinal : Option Nat :=
    match decodeId s with
    | some d => some d
    | none =>
      match parseIntBase10 s with
      | some v => if 0 < v then some v.toNat else none
      | none => none
  match idFinal with
  | none => none
  | some d => if d = 0 then none else some d

/-- A plain positive base-10 integer in the spec's sense: nonempty, decimal
digits only, positive value. -/
def isPlainPositiveInt (s : List Char) : Bool :=
  !s.isEmpty && s.all Char.isDigit && decide (0 < plainDigitsValue s)

end PixelVault

namespace PixelVault

open Hashids

theorem takeWhile_all_digits (s : List Char) (h : s.all Char.isDigit = true) :
    s.takeWhile Char.isDigit = s := by
  induction s with
  | nil => rfl
  | cons c rest ih =>
    rw [List.all_cons, Bool.and_eq_true] at h
    rw [List.takeWhile_cons, if_pos h.1, ih h.2]

theorem digit_facts (c : Char) (h : c.isDigit = true) :
    c.isWhitespace = false ∧ ¬ c = '-' ∧ ¬ c = '+' := by
  refine ⟨?_, ?_, ?_⟩
  · by_contra hw
    rw [Bool.not_eq_false] at hw
    simp [Char.isWhitespace] at hw
    rcases hw with ((h' | h') | h') | h' <;> (subst h'; exact absurd h (by decide))
  · intro he
    rw [he] at h
    exact absurd h (by decide)
  · intro he
    rw [he] at h
    exact absurd h (by decide)

theorem parseIntBase10_digits (s : List Char) (hne : ¬ s = [])
    (hdig : s.all Char.isDigit = true) :
    parseIntBase10 s = some (plainDigitsValue s : Int) := by
  rcases s with _ | ⟨c, rest⟩
  · exact absurd rfl hne
  have hdig' := hdig
  rw [List.all_cons, Bool.and_eq_true] at hdig'
  obtain ⟨hw, hm, hp⟩ := digit_facts c hdig'.1
  have hsign : ¬ (c = '-' ∨ c = '+') := by
    rintro (h' | h')
    exacts [hm h', hp h']
  rw [parseIntBase10]
  simp [hw, if_neg hm, if_neg hsign, takeWhile_all_digits (c :: rest) hdig]

/-- C2 amended: every endpoint resolves identifiers by attempting
`decodeId` first (a successful decode wins, rejected only when zero); when
`decodeId` yields the invalid sentinel, the string is accepted exactly
when JavaScript `parseInt(s, 10)` yields a positive value — every plain
positive base-10 integer such as "42" is accepted with its value, but a
positive digit prefix followed by junk is also accepted. -/
theorem C2_dual_path_resolution (s : List Char) :
    (∀ d, decodeId s = some d →
      resolveImageId s = if d = 0 then none else some d) ∧
    (decodeId s = none →
      (isPlainPositiveInt s = true → resolveImageId s = some (plainDigitsValue s)) ∧
      (∀ n, resolveImageId s = some n ↔
        ∃ v, parseIntBase10 s = some v ∧ 0 < v ∧ n = v.toNat)) := by
  constructor
  · intro d hd
    rw [resolveImageId]
    simp only [hd]
  · intro hnone
    constructor
    · intro hplain
      rw [isPlainPositiveInt] at hplain
      simp only [Bool.and_eq_true, decide_eq_true_eq] at hplain
      obtain ⟨⟨hne', hdig⟩, hpos⟩ := hplain
      have hne : ¬ s = [] := by
        intro he
        rw [he] at hne'
        simp at hne'
      rw [resolveImageId]
      simp only [hnone]
      rw [parseIntBase10_digits s hne hdig]
      have h1 : (0 : Int) < (plainDigitsValue s : Int) := by exact_mod_cast hpos
      simp [h1, Nat.pos_iff_ne_zero.mp hpos]
    · intro n
      rw [resolveImageId]
      simp only [hnone]
      rcases hv : parseIntBase10 s with _ | v
      · simp
      · by_cases hpos : 0 < v
        · have hnz : ¬ v.toNat = 0 := by omega
          simp only [hv]
          simp [hpos, hnz, eq_comm]
        · simp only [hv]
          simp [hpos]

end PixelVault

namespace PixelVault

/-- C2 counterexample: `decodeId` rejects "42abc", which is not a plain
positive base-10 integer, yet the resolver accepts it as internal id 42
because JavaScript `parseInt` reads the numeric prefix. -/
theorem C2_counterexample :
    decodeId ("42abc".toList) = none ∧
      isPlainPositiveInt ("42abc".toList) = false ∧
      resolveImageId ("42abc".toList) = some 42 := by
  refine ⟨?_, ?_, ?_⟩ <;> decide

/-- Witness for C2's amended theorem at the legacy numeric string "42". -/
theorem C2_witness :
    decodeId ("42".toList) = none ∧
      isPlainPositiveInt ("42".toList) = true ∧
      resolveImageId ("42".toList) = some (plainDigitsValue ("42".toList)) ∧
      plainDigitsValue ("42".toList) = 42 :=
  ⟨by decide, by decide,
    ((C2_dual_path_resolution ("42".toList)).2 (by decide)).1 (by decide), by decide⟩

end PixelVault

namespace ImageProcessing

/-- Dimension-level model of a raster image buffer as the sharp library
sees it: its pixel dimensions and whether it decodes at all. -/
structure RawImage where
  width : Nat
  height : Nat
  valid : Bool
  deriving Repr, DecidableEq

/-- `FULL_IMAGE_MAX_SIZE` from `src/backend/lib/image-processing.ts`:
`undefined` (no size limit). -/
def FULL_IMAGE_MAX_SIZE : Option Nat := none

/-- `THUMBNAIL_SIZE` from `src/backend/lib/image-processing.ts`. -/
def THUMBNAIL_SIZE : Nat := 150

/-- Truthiness of an optional numeric argument as JavaScript's `if (x)`
sees it: `undefined` and `0` are both falsy. -/
def optTruthy (o : Option Nat) : Bool := !(o.getD 0 == 0)

/-- Output of a WebP conversion, at the level of dimensions, format and
encoding parameters (byte-level encoding is outside the model). -/
structure WebPOut where
  width : Nat
  height : Nat
  format : String
  quality : Nat
  fitCover : Bool
  positionCenter : Bool
  deriving Repr, DecidableEq

/-- Nearest-integer rounding of the scaled dimension (JavaScript
`Math.round`, halves up) clamped to at least one pixel, as sharp does. -/
def roundDim (x : ℚ) : Nat := max 1 (round x).toNat

/-- Dimensions sharp produces for
`resize(tw, th, { fit: 'inside', withoutEnlargement: true })` applied to a
`w`-by-`h` input: scale both sides by the largest factor at most 1 that
fits both bounds, rounding to nearest. -/
def insideDims (w h tw th : Nat) : Nat × Nat :=
  let f : ℚ := min (min ((tw : ℚ) / w) ((th : ℚ) / h)) 1
  (roundDim (w * f), roundDim (h * f))

/-- `convertToWebP(imageBuffer, maxSize?, exactSize?)` from
`src/backend/lib/image-processing.ts`, modelled at the level of output
dimensions, format, quality and resize mode; the pipeline fails when the
buffer is not a decodable image. -/
def convertToWebP (img : RawImage) (maxSize exactSize : Option Nat) :
    Except String WebPOut :=
  if !img.valid then .error "Input buffer contains unsupported image format"
  else
    let webpQuality := if optTruthy exactSize then 85 else 92
    if optTruthy exactSize then
      .ok { width := exactSize.getD 0, height := exactSize.getD 0,
            format := "webp", quality := webpQuality,
            fitCover := true, positionCenter := true }
    else if optTruthy maxSize then
      .ok { width := (insideDims img.width img.height (maxSize.getD 0) (maxSize.getD 0)).1,
            height := (insideDims img.width img.height (maxSize.getD 0) (maxSize.getD 0)).2,
            format := "webp", quality := webpQuality,
            fitCover := false, positionCenter := false }
    else
      .ok { width := img.width, height := img.height, format := "webp",
            quality := webpQuality, fitCover := false, positionCenter := false }

theorem round_le_round_q {x y : ℚ} (h : x ≤ y) : round x ≤ round y := by
  rw [round_eq, round_eq]
  exact Int.floor_le_floor (by linarith)

theorem roundDim_le (x : ℚ) (m : Nat) (hm : 1 ≤ m) (hx : x ≤ (m : ℚ)) :
    roundDim x ≤ m := by
  have h1 : round x ≤ (m : ℤ) := by
    have h2 := round_le_round_q hx
    rwa [round_natCast] at h2
  rw [roundDim]
  omega

theorem roundDim_close (x : ℚ) (hx : 0 < x) : |(roundDim x : ℚ) - x| ≤ 1 := by
  have h1 : |x - ((round x : ℤ) : ℚ)| ≤ 1 / 2 := abs_sub_round x
  have h0 : (0 : ℤ) ≤ round x := by
    have h2 := round_le_round_q (le_of_lt hx)
    simpa using h2
  rcases Nat.lt_or_ge (round x).toNat 1 with hsmall | hbig
  · have hz : round x = 0 := by omega
    rw [hz] at h1
    simp only [Int.cast_zero, zero_sub, abs_neg] at h1
    have : roundDim x = 1 := by rw [roundDim, hz]; rfl
    rw [this]
    rw [abs_le] at h1 ⊢
    constructor <;> push_cast <;> linarith [h1.1, h1.2, hx]
  · have : roundDim x = (round x).toNat := by rw [roundDim]; omega
    rw [this]
    have hcast : (((round x).toNat : ℚ)) = ((round x : ℤ) : ℚ) := by
      exact_mod_cast Int.toNat_of_nonneg h0
    rw [hcast, abs_sub_comm]
    linarith [h1]

/-- C4: thumbnail conversion yields a 150-by-150 WebP via a centred cover
crop for every valid input image, regardless of aspect ratio. -/
theorem C4_thumbnail_square (img : RawImage) (hv : img.valid = true) :
    ∃ out, convertToWebP img none (some THUMBNAIL_SIZE) = .ok out ∧
      out.width = THUMBNAIL_SIZE ∧ out.height = THUMBNAIL_SIZE ∧
      THUMBNAIL_SIZE = 150 ∧ out.format = "webp" ∧
      out.fitCover = true ∧ out.positionCenter = true := by
  refine ⟨⟨150, 150, "webp", 85, true, true⟩, ?_, rfl, rfl, rfl, rfl, rfl, rfl⟩
  simp [convertToWebP, hv, optTruthy, THUMBNAIL_SIZE]

/-- Witness for C4 at a concrete 100-by-50 image. -/
theorem C4_witness :
    (⟨100, 50, true⟩ : RawImage).valid = true ∧
      ∃ out, convertToWebP ⟨100, 50, true⟩ none (some THUMBNAIL_SIZE) = .ok out ∧
        out.width = THUMBNAIL_SIZE ∧ out.height = THUMBNAIL_SIZE ∧
        THUMBNAIL_SIZE = 150 ∧ out.format = "webp" ∧
        out.fitCover = true ∧ out.positionCenter = true :=
  ⟨rfl, C4_thumbnail_square ⟨100, 50, true⟩ rfl⟩

end ImageProcessing

namespace ImageProcessing

/-- C5: full-mode conversion never upscales.  With no bound configured
(the default: `FULL_IMAGE_MAX_SIZE` is undefined and
`processUploadedImage` passes no `maxSize`) output dimensions equal input
dimensions; with a bound `m` that the input exceeds, the output fits
within `m` in both dimensions and both sides are a common downscale
factor below one, within one pixel of exact scaling. -/
theorem C5_full_never_upscales (img : RawImage) (hv : img.valid = true)
    (hw : 0 < img.width) (hh : 0 < img.height) :
    (∃ out, convertToWebP img FULL_IMAGE_MAX_SIZE none = .ok out ∧
        out.width = img.width ∧ out.height = img.height) ∧
    (∀ m : Nat, 0 < m → m < img.width ∨ m < img.height →
      ∃ out, convertToWebP img (some m) none = .ok out ∧
        out.width ≤ m ∧ out.height ≤ m ∧
        ∃ f : ℚ, 0 < f ∧ f < 1 ∧
          |(out.width : ℚ) - img.width * f| ≤ 1 ∧
          |(out.height : ℚ) - img.height * f| ≤ 1) := by
  obtain ⟨w, h, v⟩ := img
  simp only at hv hw hh
  subst hv
  constructor
  · refine ⟨⟨w, h, "webp", 92, false, false⟩, ?_, rfl, rfl⟩
    simp [convertToWebP, FULL_IMAGE_MAX_SIZE, optTruthy]
  · intro m hm hexceed
    have hwq : (0:ℚ) < w := by exact_mod_cast hw
    have hhq : (0:ℚ) < h := by exact_mod_cast hh
    have hmq : (0:ℚ) < m := by exact_mod_cast hm
    set f : ℚ := min (min ((m : ℚ) / w) ((m : ℚ) / h)) 1 with hf
    have hfpos : 0 < f := by
      rw [hf]
      exact lt_min (lt_min (div_pos hmq hwq) (div_pos hmq hhq)) one_pos
    have hflt : f < 1 := by
      rcases hexceed with hx | hx
      · have h1 : (m:ℚ)/w < 1 := (div_lt_one hwq).mpr (by exact_mod_cast hx)
        calc f ≤ min ((m:ℚ)/w) ((m:ℚ)/h) := min_le_left _ _
          _ ≤ (m:ℚ)/w := min_le_left _ _
          _ < 1 := h1
      · have h1 : (m:ℚ)/h < 1 := (div_lt_one hhq).mpr (by exact_mod_cast hx)
        calc f ≤ min ((m:ℚ)/w) ((m:ℚ)/h) := min_le_left _ _
          _ ≤ (m:ℚ)/h := min_le_right _ _
          _ < 1 := h1
    have hwf : (w:ℚ) * f ≤ m := by
      have h3 : f ≤ (m:ℚ)/w := le_trans (min_le_left _ _) (min_le_left _ _)
      have h4 := (le_div_iff₀ hwq).mp h3
      calc (w:ℚ) * f = f * w := mul_comm _ _
        _ ≤ m := h4
    have hhf : (h:ℚ) * f ≤ m := by
      have h3 : f ≤ (m:ℚ)/h := le_trans (min_le_left _ _) (min_le_right _ _)
      have h4 := (le_div_iff₀ hhq).mp h3
      calc (h:ℚ) * f = f * h := mul_comm _ _
        _ ≤ m := h4
    refine ⟨⟨(insideDims w h m m).1, (insideDims w h m m).2, "webp", 92, false, false⟩,
      ?_, ?_, ?_, f, hfpos, hflt, ?_, ?_⟩
    · simp [convertToWebP, optTruthy, Nat.pos_iff_ne_zero.mp hm]
    · show (insideDims w h m m).1 ≤ m
      simp only [insideDims]
      rw [← hf]
      exact roundDim_le _ m (by omega) hwf
    · show (insideDims w h m m).2 ≤ m
      simp only [insideDims]
      rw [← hf]
      exact roundDim_le _ m (by omega) hhf
    · show |((insideDims w h m m).1 : ℚ) - w * f| ≤ 1
      simp only [insideDims]
      rw [← hf]
      exact roundDim_close _ (mul_pos hwq hfpos)
    · show |((insideDims w h m m).2 : ℚ) - h * f| ≤ 1
      simp only [insideDims]
      rw [← hf]
      exact roundDim_close _ (mul_pos hhq hfpos)

/-- Witness for C5 at a concrete 800-by-600 image and bound 400. -/
theorem C5_witness :
    (∃ out, convertToWebP ⟨800, 600, true⟩ FULL_IMAGE_MAX_SIZE none = .ok out ∧
        out.width = 800 ∧ out.height = 600) ∧
    (∃ out, convertToWebP ⟨800, 600, true⟩ (some 400) none = .ok out ∧
        out.width ≤ 400 ∧ out.height ≤ 400 ∧
        ∃ f : ℚ, 0 < f ∧ f < 1 ∧
          |(out.width : ℚ) - 800 * f| ≤ 1 ∧ |(out.height : ℚ) - 600 * f| ≤ 1) :=
  ⟨(C5_full_never_upscales ⟨800, 600, true⟩ rfl (by decide) (by decide)).1,
   (C5_full_never_upscales ⟨800, 600, true⟩ rfl (by decide) (by decide)).2 400
     (by decide) (Or.inl (by decide))⟩

end ImageProcessing

namespace ImageProcessing

/-- Metadata sharp reports for a buffer. -/
structure SharpMeta where
  width : Option Nat
  height : Option Nat
  format : Option String
  deriving Repr, DecidableEq

/-- Model of one uploaded buffer: its bytes plus the outcome of each
library call `processUploadedImage` makes on it.  Each `Except` field is
the oracle outcome of the corresponding sharp/blurhash call, an error
meaning the library threw. -/
structure BufferModel where
  bytes : List Nat
  metadataR : Except String SharpMeta
  blurR : Except String String
  thumbR : Except String (List Nat)
  fullR : Except String (List Nat)

/-- The format-to-MIME map inside `detectMimeType`. -/
def mimeTypeMap : String → Option String
  | "jpeg" => some "image/jpeg"
  | "jpg" => some "image/jpeg"
  | "png" => some "image/png"
  | "webp" => some "image/webp"
  | "gif" => some "image/gif"
  | "svg" => some "image/svg+xml"
  | "tiff" => some "image/tiff"
  | "bmp" => some "image/bmp"
  | _ => none

/-- `getImageDimensions`: the metadata probe with missing dimensions
defaulted to 0; a probe failure is rethrown. -/
def getImageDimensions (b : BufferModel) : Except String (Nat × Nat) :=
  match b.metadataR with
  | .error e => .error e
  | .ok m => .ok (m.width.getD 0, m.height.getD 0)

/-- `detectMimeType`: maps the probed format (defaulted to "jpeg") through
`mimeTypeMap` with an "image/jpeg" fallback; a probe failure is caught and
also yields "image/jpeg". -/
def detectMimeType (b : BufferModel) : String :=
  match b.metadataR with
  | .error _ => "image/jpeg"
  | .ok m => (mimeTypeMap (m.format.getD "jpeg")).getD "image/jpeg"

/-- The `ProcessedImage` record of `src/backend/lib/image-processing.ts`. -/
structure ProcessedImage where
  blurhash : String
  thumbnailWebP : List Nat
  imageWebP : List Nat
  originalImage : List Nat
  originalMimeType : String
  width : Nat
  height : Nat
  originalSize : Nat
  deriving Repr, DecidableEq

/-- `processUploadedImage`: dimension probe, size, MIME detection,
BlurHash, then the two WebP conversions.  The `Promise.all` pair is
modelled sequentially (thumbnail first), which agrees with the code
whenever at most one conversion fails. -/
def processUploadedImage (b : BufferModel) : Except String ProcessedImage :=
  match getImageDimensions b with
  | .error e => .error e
  | .ok wh =>
    let originalSize := b.bytes.length
    let originalMimeType := detectMimeType b
    match b.blurR with
    | .error e => .error e
    | .ok blurhash =>
      match b.thumbR with
      | .error e => .error e
      | .ok thumbnailWebP =>
        match b.fullR with
        | .error e => .error e
        | .ok imageWebP =>
          .ok { blurhash := blurhash, thumbnailWebP := thumbnailWebP,
                imageWebP := imageWebP, originalImage := b.bytes,
                originalMimeType := originalMimeType,
                width := wh.1, height := wh.2, originalSize := originalSize }

/-- C6: ingestion is all-or-nothing.  It succeeds exactly when the
dimension probe, BlurHash generation, and both WebP conversions succeed
(MIME detection never fails: it falls back to "image/jpeg"); when exactly
one step fails, the whole operation fails with that step's error; and a
returned `ProcessedImage` has every field populated from the
corresponding successful step, the original bytes preserved. -/
theorem C6_ingestion_atomic (b : BufferModel) :
    ((processUploadedImage b).isOk = true ↔
      (b.metadataR.isOk = true ∧ b.blurR.isOk = true ∧
       b.thumbR.isOk = true ∧ b.fullR.isOk = true)) ∧
    (∀ e,
      ((b.metadataR = .error e ∧ b.blurR.isOk = true ∧ b.thumbR.isOk = true ∧
          b.fullR.isOk = true) ∨
       (b.metadataR.isOk = true ∧ b.blurR = .error e ∧ b.thumbR.isOk = true ∧
          b.fullR.isOk = true) ∨
       (b.metadataR.isOk = true ∧ b.blurR.isOk = true ∧ b.thumbR = .error e ∧
          b.fullR.isOk = true) ∨
       (b.metadataR.isOk = true ∧ b.blurR.isOk = true ∧ b.thumbR.isOk = true ∧
          b.fullR = .error e)) →
      processUploadedImage b = .error e) ∧
    (∀ p, processUploadedImage b = .ok p →
      (∃ m, b.metadataR = .ok m ∧ p.width = m.width.getD 0 ∧
        p.height = m.height.getD 0) ∧
      b.blurR = .ok p.blurhash ∧ b.thumbR = .ok p.thumbnailWebP ∧
      b.fullR = .ok p.imageWebP ∧ p.originalImage = b.bytes ∧
      p.originalMimeType = detectMimeType b ∧ p.originalSize = b.bytes.length) := by
  obtain ⟨bytes, mR, blR, tR, fR⟩ := b
  rcases mR with e₁ | m <;> rcases blR with e₂ | bl <;> rcases tR with e₃ | tb <;>
    rcases fR with e₄ | fb <;>
    simp [processUploadedImage, getImageDimensions, detectMimeType, Except.isOk,
      Except.toBool]

/-- Witness for C6: a concrete fully-successful buffer and a concrete
buffer whose thumbnail conversion fails. -/
theorem C6_witness :
    ((processUploadedImage ⟨[7], .ok ⟨some 2, some 3, some "png"⟩, .ok "bh",
        .ok [1], .ok [2]⟩).isOk = true) ∧
      processUploadedImage ⟨[7], .ok ⟨some 2, some 3, some "png"⟩, .ok "bh",
        .error "boom", .ok [2]⟩ = .error "boom" :=
  ⟨(C6_ingestion_atomic _).1.mpr ⟨rfl, rfl, rfl, rfl⟩,
   (C6_ingestion_atomic _).2.1 "boom" (Or.inr (Or.inr (Or.inl ⟨rfl, rfl, rfl, rfl⟩)))⟩

end ImageProcessing

namespace Dispatcher

open PixelVault

/-- An image record as the storage layer holds it, as far as the serving
paths read it. -/
structure ImageRecord where
  originalBytes : Option (List Nat)
  mimeType : Option String
  isDeleted : Bool
  deriving Repr, DecidableEq

/-- The record store: lookup by internal integer id. -/
structure Store where
  lookup : Nat → Option ImageRecord

/-- The result shape `getOriginalImageFile` and `getResizedOriginalImage`
return to the routes. -/
structure FileResult where
  success : Bool
  errorMsg : Option String
  data : Option (List Nat)
  mimeType : Option String
  deriving Repr, DecidableEq

/-- Modelled from the spec: `getOriginalImageFile` lives in
`src/backend/lib/images.ts`, which is not part of the source snapshot
(only its callers are).  Per the spec (soft-deleted records are excluded
from all read paths; NotFound vs DataUnavailable; the exact error strings
the route dispatches on): an existing, non-deleted record with stored
original bytes yields success with those bytes and the stored MIME type;
a missing or soft-deleted record yields "Image not found"; a record
without stored original bytes yields "Image data not available". -/
def getOriginalImageFile (st : Store) (id : Nat) : FileResult :=
  match st.lookup id with
  | none => ⟨false, some "Image not found", none, none⟩
  | some r =>
    if r.isDeleted then ⟨false, some "Image not found", none, none⟩
    else
      match r.originalBytes with
      | none => ⟨false, some "Image data not available", none, none⟩
      | some bytes => ⟨true, none, some bytes, r.mimeType⟩

/-- Body of an HTTP response. -/
inductive Body
  | bytes (b : List Nat)
  | text (s : String)
  | empty
  deriving Repr, DecidableEq

/-- The response data the routes produce. -/
structure HttpResponse where
  status : Nat
  body : Body
  contentType : Option String
  contentLength : Option Nat
  etag : Option String
  contentDisposition : Option String
  deriving Repr, DecidableEq

/-- The request data the routes read. -/
structure Request where
  userId : Option String
  idParam : List Char
  ifNoneMatch : Option String
  deriving Repr, DecidableEq

/-- The routes' `!userId || userId === 'anonymous'` check
(`getUserIdFromRequest` returns a string or null; null and the empty
string are falsy). -/
def unauthenticated (userId : Option String) : Bool :=
  match userId with
  | none => true
  | some s => s == "" || s == "anonymous"

/-- JavaScript `x || 'image/jpeg'` on the result's MIME field. -/
def orJpeg (o : Option String) : String :=
  match o with
  | none => "image/jpeg"
  | some m => if m = "" then "image/jpeg" else m

/-- The `mimeToExt` map of the original-file route (includes webp). -/
def mimeToExtOriginal : String → Option String
  | "image/png" => some "png"
  | "image/jpeg" => some "jpg"
  | "image/jpg" => some "jpg"
  | "image/webp" => some "webp"
  | _ => none

/-- The `mimeToExt` map of the 9x16 download route (png and jpeg only). -/
def mimeToExt9x16 : String → Option String
  | "image/png" => some "png"
  | "image/jpeg" => some "jpg"
  | "image/jpg" => some "jpg"
  | _ => none

/-- `GET /api/images/[id]/original`
(`src/frontend/app/api/images/[id]/original/route.ts`), parametrized by
the MD5 hex digest function of the node crypto module: authentication
check, dual-path id resolution, record fetch, ETag/If-None-Match
handling, then the 200 response with download headers. -/
def originalRoute (md5hex : List Nat → String) (st : Store) (req : Request) :
    HttpResponse :=
  if unauthenticated req.userId then
    ⟨401, .text "Authentication required", none, none, none, none⟩
  else
    match resolveImageId req.idParam with
    | none => ⟨400, .text "Invalid image ID", none, none, none, none⟩
    | some id =>
      let result := getOriginalImageFile st id
      if !result.success then
        ⟨if result.errorMsg = some "Image not found" ∨
            result.errorMsg = some "Image data not available" then 404 else 500,
         .text ((result.errorMsg).getD "Image not found"), none, none, none, none⟩
      else
        let imageBuffer := result.data.getD []
        let etag := md5hex imageBuffer
        if req.ifNoneMatch = some ("\"" ++ etag ++ "\"") then
          ⟨304, .empty, none, none, none, none⟩
        else
          ⟨200, .bytes imageBuffer,
            some (orJpeg result.mimeType),
            some imageBuffer.length,
            some ("\"" ++ etag ++ "\""),
            some ("attachment; filename=\"image-" ++ toString id ++ "-original." ++
              ((mimeToExtOriginal (orJpeg result.mimeType)).getD "jpg") ++ "\"")⟩

/-- `GET /api/images/[id]/download/9x16` (the unnamed download route),
parametrized by the MD5 digest and by `getResizedOriginalImage` from the
missing `src/backend/lib/images.ts` (modelled as an oracle returning the
`FileResult` shape the route dispatches on). -/
def download9x16Route (md5hex : List Nat → String)
    (getResized : Nat → FileResult) (req : Request) : HttpResponse :=
  if unauthenticated req.userId then
    ⟨401, .text "Authentication required", none, none, none, none⟩
  else
    match resolveImageId req.idParam with
    | none => ⟨400, .text "Invalid image ID", none, none, none, none⟩
    | some id =>
      let result := getResized id
      if !result.success then
        ⟨if result.errorMsg = some "Image not found" ∨
            result.errorMsg = some "Original image data not available" then 404 else 500,
         .text ((result.errorMsg).getD "Image not found"), none, none, none, none⟩
      else
        let imageBuffer := result.data.getD []
        let etag := md5hex imageBuffer
        if req.ifNoneMatch = some ("\"" ++ etag ++ "\"") then
          ⟨304, .empty, none, none, none, none⟩
        else
          ⟨200, .bytes imageBuffer,
            some (orJpeg result.mimeType),
            some imageBuffer.length,
            some ("\"" ++ etag ++ "\""),
            some ("attachment; filename=\"image-" ++ toString id ++ "-9x16-1080x1920." ++
              ((mimeToExt9x16 (orJpeg result.mimeType)).getD "jpg") ++ "\"")⟩

end Dispatcher

namespace Dispatcher

open PixelVault

/-- C7: without an authenticated session (missing user, empty string, or
the 'anonymous' sentinel) the original-file endpoint and the
resized-download endpoint answer 401 with no image bytes; with a valid
session, a resolvable id naming an existing, non-deleted record with
stored original bytes, and no conditional header, the original endpoint
answers 200 with exactly the stored bytes and a Content-Type equal to the
stored MIME type. -/
theorem C7_auth_gate_and_success (md5hex : List Nat → String) (st : Store)
    (req : Request) (getResized : Nat → FileResult) :
    (unauthenticated req.userId = true →
      (originalRoute md5hex st req).status = 401 ∧
      (∀ bs, ¬ (originalRoute md5hex st req).body = Body.bytes bs) ∧
      (download9x16Route md5hex getResized req).status = 401 ∧
      (∀ bs, ¬ (download9x16Route md5hex getResized req).body = Body.bytes bs)) ∧
    (∀ id r bytes m,
      unauthenticated req.userId = false →
      resolveImageId req.idParam = some id →
      st.lookup id = some r → r.isDeleted = false →
      r.originalBytes = some bytes → r.mimeType = some m → ¬ m = "" →
      req.ifNoneMatch = none →
      (originalRoute md5hex st req).status = 200 ∧
      (originalRoute md5hex st req).body = Body.bytes bytes ∧
      (originalRoute md5hex st req).contentType = some m) := by
  constructor
  · intro hu
    rw [originalRoute, if_pos hu, download9x16Route, if_pos hu]
    refine ⟨rfl, ?_, rfl, ?_⟩ <;> intro bs <;> simp
  · intro id r bytes m hu hres hlook hdel hbytes hm hmne hinm
    have hfile : getOriginalImageFile st id = ⟨true, none, some bytes, some m⟩ := by
      rw [getOriginalImageFile, hlook]
      simp [hdel, hbytes, hm]
    rw [originalRoute, if_neg (by simp [hu])]
    simp only [hres, hfile, hinm]
    simp [orJpeg, hmne]

/-- Witness for C7 at a concrete store, record and pair of requests. -/
theorem C7_witness :
    (unauthenticated (some "anonymous") = true →
      (originalRoute (fun _ => "d")
          ⟨fun _ => some ⟨some [1, 2], some "image/png", false⟩⟩
          ⟨some "anonymous", "7".toList, none⟩).status = 401 ∧
      (∀ bs, ¬ (originalRoute (fun _ => "d")
          ⟨fun _ => some ⟨some [1, 2], some "image/png", false⟩⟩
          ⟨some "anonymous", "7".toList, none⟩).body = Body.bytes bs) ∧
      (download9x16Route (fun _ => "d") (fun _ => ⟨false, some "Image not found", none, none⟩)
          ⟨some "anonymous", "7".toList, none⟩).status = 401 ∧
      (∀ bs, ¬ (download9x16Route (fun _ => "d")
          (fun _ => ⟨false, some "Image not found", none, none⟩)
          ⟨some "anonymous", "7".toList, none⟩).body = Body.bytes bs)) ∧
    ((originalRoute (fun _ => "d")
        ⟨fun _ => some ⟨some [1, 2], some "image/png", false⟩⟩
        ⟨some "u1", "7".toList, none⟩).status = 200 ∧
      (originalRoute (fun _ => "d")
        ⟨fun _ => some ⟨some [1, 2], some "image/png", false⟩⟩
        ⟨some "u1", "7".toList, none⟩).body = Body.bytes [1, 2] ∧
      (originalRoute (fun _ => "d")
        ⟨fun _ => some ⟨some [1, 2], some "image/png", false⟩⟩
        ⟨some "u1", "7".toList, none⟩).contentType = some "image/png") :=
  ⟨(C7_auth_gate_and_success (fun _ => "d")
      ⟨fun _ => some ⟨some [1, 2], some "image/png", false⟩⟩
      ⟨some "anonymous", "7".toList, none⟩
      (fun _ => ⟨false, some "Image not found", none, none⟩)).1,
   (C7_auth_gate_and_success (fun _ => "d")
      ⟨fun _ => some ⟨some [1, 2], some "image/png", false⟩⟩
      ⟨some "u1", "7".toList, none⟩
      (fun _ => ⟨false, some "Image not found", none, none⟩)).2
      7 ⟨some [1, 2], some "image/png", false⟩ [1, 2] "image/png"
      rfl (by decide) rfl rfl rfl rfl (by decide) rfl⟩

end Dispatcher

namespace Dispatcher

open PixelVault

/-- C8 counterexample: a request that is both unauthenticated and carries
an unresolvable identifier ("???" neither decodes nor parses) receives
401, not the 400 the spec's state machine order (resolution before
authorization) would require. -/
theorem C8_counterexample :
    resolveImageId ("???".toList) = none ∧
      (originalRoute (fun _ => "") ⟨fun _ => none⟩
        ⟨none, "???".toList, none⟩).status = 401 ∧
      ¬ (originalRoute (fun _ => "") ⟨fun _ => none⟩
        ⟨none, "???".toList, none⟩).status = 400 := by
  refine ⟨by decide, by decide, by decide⟩

/-- C8 amended: the dispatcher (both the original-file route and the
resized-download route) checks authorization before identifier
resolution: an unauthenticated request receives 401 regardless of the
identifier (even an invalid one); only an authenticated request with an
identifier that neither decodes nor parses as a valid positive integer
receives 400 (InvalidIdentifier). -/
theorem C8_auth_before_resolution (md5hex : List Nat → String) (st : Store)
    (getResized : Nat → FileResult) (req : Request) :
    (unauthenticated req.userId = true →
      (originalRoute md5hex st req).status = 401 ∧
      (download9x16Route md5hex getResized req).status = 401) ∧
    (unauthenticated req.userId = false →
      resolveImageId req.idParam = none →
      (originalRoute md5hex st req).status = 400 ∧
      (download9x16Route md5hex getResized req).status = 400) := by
  constructor
  · intro hu
    rw [originalRoute, if_pos hu, download9x16Route, if_pos hu]
    exact ⟨rfl, rfl⟩
  · intro hu hres
    rw [originalRoute, if_neg (by simp [hu]), download9x16Route, if_neg (by simp [hu])]
    simp only [hres]
    trivial

/-- Witness for C8's amended theorem: on both routes an unauthenticated
request gets 401 and an authenticated request with the unresolvable id
"???" gets 400. -/
theorem C8_witness :
    ((originalRoute (fun _ => "") ⟨fun _ => none⟩
        ⟨none, "???".toList, none⟩).status = 401 ∧
      (download9x16Route (fun _ => "")
        (fun _ => ⟨false, some "Image not found", none, none⟩)
        ⟨none, "???".toList, none⟩).status = 401) ∧
    ((originalRoute (fun _ => "") ⟨fun _ => none⟩
        ⟨some "u1", "???".toList, none⟩).status = 400 ∧
      (download9x16Route (fun _ => "")
        (fun _ => ⟨false, some "Image not found", none, none⟩)
        ⟨some "u1", "???".toList, none⟩).status = 400) :=
  ⟨(C8_auth_before_resolution (fun _ => "") ⟨fun _ => none⟩
      (fun _ => ⟨false, some "Image not found", none, none⟩)
      ⟨none, "???".toList, none⟩).1 rfl,
   (C8_auth_before_resolution (fun _ => "") ⟨fun _ => none⟩
      (fun _ => ⟨false, some "Image not found", none, none⟩)
      ⟨some "u1", "???".toList, none⟩).2 (by decide) (by decide)⟩

end Dispatcher

namespace Dispatcher

open PixelVault

/-- C9: every 200 response of the original endpoint and of the
resized-download endpoint carries as ETag the quoted MD5 digest of exactly
the bytes in its body — so two requests for the same rendition of the same
record produce the same ETag — and replaying the request with that ETag in
If-None-Match produces 304 with an empty body. -/
theorem C9_etag_conditional (md5hex : List Nat → String) (st : Store)
    (getResized : Nat → FileResult) (req : Request) :
    (∀ bs e, (originalRoute md5hex st req).status = 200 →
      (originalRoute md5hex st req).body = Body.bytes bs →
      (originalRoute md5hex st req).etag = some e →
      e = "\"" ++ md5hex bs ++ "\"" ∧
      (∀ req2 : Request, req2.userId = req.userId → req2.idParam = req.idParam →
        req2.ifNoneMatch = some e →
        (originalRoute md5hex st req2).status = 304 ∧
        (originalRoute md5hex st req2).body = Body.empty)) ∧
    (∀ bs e, (download9x16Route md5hex getResized req).status = 200 →
      (download9x16Route md5hex getResized req).body = Body.bytes bs →
      (download9x16Route md5hex getResized req).etag = some e →
      e = "\"" ++ md5hex bs ++ "\"" ∧
      (∀ req2 : Request, req2.userId = req.userId → req2.idParam = req.idParam →
        req2.ifNoneMatch = some e →
        (download9x16Route md5hex getResized req2).status = 304 ∧
        (download9x16Route md5hex getResized req2).body = Body.empty)) := by
  constructor
  · intro bs e h200 hbody hetag
    by_cases hu : unauthenticated req.userId = true
    · rw [originalRoute, if_pos hu] at h200
      simp at h200
    rcases hres : resolveImageId req.idParam with _ | id
    · rw [originalRoute, if_neg hu] at h200
      simp only [hres] at h200
      simp at h200
    rw [originalRoute, if_neg hu] at h200 hbody hetag
    simp only [hres] at h200 hbody hetag
    by_cases hsucc : (getOriginalImageFile st id).success = true
    case neg =>
      rw [if_pos (by simp [hsucc])] at h200
      by_cases herr : (getOriginalImageFile st id).errorMsg = some "Image not found" ∨
          (getOriginalImageFile st id).errorMsg = some "Image data not available"
      · rw [if_pos herr] at h200
        simp at h200
      · rw [if_neg herr] at h200
        simp at h200
    case pos =>
      rw [if_neg (by simp [hsucc])] at h200 hbody hetag
      by_cases hmatch : req.ifNoneMatch =
          some ("\"" ++ md5hex ((getOriginalImageFile st id).data.getD []) ++ "\"")
      · rw [if_pos hmatch] at h200
        simp at h200
      · rw [if_neg hmatch] at hbody hetag
        simp only at hbody hetag
        have hD : (getOriginalImageFile st id).data.getD [] = bs := by
          cases hbody
          rfl
        have hE : e = "\"" ++ md5hex ((getOriginalImageFile st id).data.getD []) ++ "\"" := by
          cases hetag
          rfl
        constructor
        · rw [hE, hD]
        · intro req2 h1 h2 h3
          rw [originalRoute, if_neg (by rw [h1]; exact hu)]
          simp only [h2, hres]
          rw [if_neg (by simp [hsucc])]
          rw [if_pos (by rw [h3, hE])]
          exact ⟨rfl, rfl⟩
  · intro bs e h200 hbody hetag
    by_cases hu : unauthenticated req.userId = true
    · rw [download9x16Route, if_pos hu] at h200
      simp at h200
    rcases hres : resolveImageId req.idParam with _ | id
    · rw [download9x16Route, if_neg hu] at h200
      simp only [hres] at h200
      simp at h200
    rw [download9x16Route, if_neg hu] at h200 hbody hetag
    simp only [hres] at h200 hbody hetag
    by_cases hsucc : (getResized id).success = true
    case neg =>
      rw [if_pos (by simp [hsucc])] at h200
      by_cases herr : (getResized id).errorMsg = some "Image not found" ∨
          (getResized id).errorMsg = some "Original image data not available"
      · rw [if_pos herr] at h200
        simp at h200
      · rw [if_neg herr] at h200
        simp at h200
    case pos =>
      rw [if_neg (by simp [hsucc])] at h200 hbody hetag
      by_cases hmatch : req.ifNoneMatch =
          some ("\"" ++ md5hex ((getResized id).data.getD []) ++ "\"")
      · rw [if_pos hmatch] at h200
        simp at h200
      · rw [if_neg hmatch] at hbody hetag
        simp only at hbody hetag
        have hD : (getResized id).data.getD [] = bs := by
          cases hbody
          rfl
        have hE : e = "\"" ++ md5hex ((getResized id).data.getD []) ++ "\"" := by
          cases hetag
          rfl
        constructor
        · rw [hE, hD]
        · intro req2 h1 h2 h3
          rw [download9x16Route, if_neg (by rw [h1]; exact hu)]
          simp only [h2, hres]
          rw [if_neg (by simp [hsucc])]
          rw [if_pos (by rw [h3, hE])]
          exact ⟨rfl, rfl⟩

/-- Witness for C9 at a concrete store, resize oracle and digest
function, exercising both routes. -/
theorem C9_witness :
    (("\"d\"" : String) = "\"" ++ (fun (_ : List Nat) => "d") [1, 2] ++ "\"" ∧
      (∀ req2 : Request, req2.userId = some "u1" → req2.idParam = "7".toList →
        req2.ifNoneMatch = some "\"d\"" →
        (originalRoute (fun _ => "d")
          ⟨fun _ => some ⟨some [1, 2], some "image/png", false⟩⟩ req2).status = 304 ∧
        (originalRoute (fun _ => "d")
          ⟨fun _ => some ⟨some [1, 2], some "image/png", false⟩⟩ req2).body = Body.empty)) ∧
    (("\"d\"" : String) = "\"" ++ (fun (_ : List Nat) => "d") [3] ++ "\"" ∧
      (∀ req2 : Request, req2.userId = some "u1" → req2.idParam = "7".toList →
        req2.ifNoneMatch = some "\"d\"" →
        (download9x16Route (fun _ => "d")
          (fun _ => ⟨true, none, some [3], some "image/jpeg"⟩) req2).status = 304 ∧
        (download9x16Route (fun _ => "d")
          (fun _ => ⟨true, none, some [3], some "image/jpeg"⟩) req2).body = Body.empty)) :=
  ⟨(C9_etag_conditional (fun _ => "d")
      ⟨fun _ => some ⟨some [1, 2], some "image/png", false⟩⟩
      (fun _ => ⟨true, none, some [3], some "image/jpeg"⟩)
      ⟨some "u1", "7".toList, none⟩).1 [1, 2] "\"d\""
      (by decide) (by decide) (by decide),
   (C9_etag_conditional (fun _ => "d")
      ⟨fun _ => some ⟨some [1, 2], some "image/png", false⟩⟩
      (fun _ => ⟨true, none, some [3], some "image/jpeg"⟩)
      ⟨some "u1", "7".toList, none⟩).2 [3] "\"d\""
      (by decide) (by decide) (by decide)⟩

end Dispatcher

namespace Dispatcher

open PixelVault

/-- Extension consistency with a MIME type, following the spec's words:
the filename extension must be the canonical extension of the MIME type of
the bytes served. -/
def extConsistent (mime ext : String) : Bool :=
  match mime with
  | "image/png" => ext == "png"
  | "image/jpeg" => ext == "jpg" || ext == "jpeg"
  | "image/jpg" => ext == "jpg" || ext == "jpeg"
  | "image/webp" => ext == "webp"
  | "image/gif" => ext == "gif"
  | "image/svg+xml" => ext == "svg"
  | "image/tiff" => ext == "tiff" || ext == "tif"
  | "image/bmp" => ext == "bmp"
  | _ => false

/-- C10 counterexample: the record store can carry "image/gif"
(`detectMimeType` produces it for a gif buffer), and serving such a record
yields Content-Type image/gif with a Content-Disposition filename ending
".jpg" — an extension inconsistent with the MIME type served. -/
theorem C10_counterexample :
    ImageProcessing.detectMimeType
        ⟨[9], Except.ok ⟨some 1, some 1, some "gif"⟩, Except.ok "b",
          Except.ok [1], Except.ok [2]⟩ = "image/gif" ∧
    (originalRoute (fun _ => "h")
        ⟨fun _ => some ⟨some [9], some "image/gif", false⟩⟩
        ⟨some "u1", "7".toList, none⟩).status = 200 ∧
    (originalRoute (fun _ => "h")
        ⟨fun _ => some ⟨some [9], some "image/gif", false⟩⟩
        ⟨some "u1", "7".toList, none⟩).contentType = some "image/gif" ∧
    (originalRoute (fun _ => "h")
        ⟨fun _ => some ⟨some [9], some "image/gif", false⟩⟩
        ⟨some "u1", "7".toList, none⟩).contentDisposition =
      some "attachment; filename=\"image-7-original.jpg\"" ∧
    extConsistent "image/gif" "jpg" = false := by
  refine ⟨rfl, by decide, by decide, by decide, rfl⟩

/-- C10 amended: every successful download response has Content-Type equal
to the stored MIME type of the bytes served and an attachment
Content-Disposition whose filename extension is looked up from that MIME
type.  On the original-file endpoint the extension is consistent with the
Content-Type for png, jpeg, jpg and webp records; on the 9x16 download
endpoint only for png, jpeg and jpg (its map has no webp entry); every
other MIME type a record can carry (gif, svg, tiff, bmp) falls back to a
".jpg" extension that does not match the Content-Type. -/
theorem C10_download_headers (md5hex : List Nat → String) (st : Store)
    (getResized : Nat → FileResult) (req : Request) :
    (∀ id r bytes m,
      unauthenticated req.userId = false →
      resolveImageId req.idParam = some id →
      st.lookup id = some r → r.isDeleted = false →
      r.originalBytes = some bytes → r.mimeType = some m → ¬ m = "" →
      req.ifNoneMatch = none →
      (originalRoute md5hex st req).contentType = some m ∧
      ∃ ext, (originalRoute md5hex st req).contentDisposition =
          some ("attachment; filename=\"image-" ++ toString id ++ "-original." ++
            ext ++ "\"") ∧
        ext = (mimeToExtOriginal m).getD "jpg" ∧
        (m = "image/png" ∨ m = "image/jpeg" ∨ m = "image/jpg" ∨ m = "image/webp" →
          extConsistent m ext = true)) ∧
    (∀ id bytes m,
      unauthenticated req.userId = false →
      resolveImageId req.idParam = some id →
      getResized id = ⟨true, none, some bytes, some m⟩ → ¬ m = "" →
      req.ifNoneMatch = none →
      (download9x16Route md5hex getResized req).contentType = some m ∧
      ∃ ext, (download9x16Route md5hex getResized req).contentDisposition =
          some ("attachment; filename=\"image-" ++ toString id ++ "-9x16-1080x1920." ++
            ext ++ "\"") ∧
        ext = (mimeToExt9x16 m).getD "jpg" ∧
        (m = "image/png" ∨ m = "image/jpeg" ∨ m = "image/jpg" →
          extConsistent m ext = true)) := by
  constructor
  · intro id r bytes m hu hres hlook hdel hbytes hm hmne hinm
    have hfile : getOriginalImageFile st id = ⟨true, none, some bytes, some m⟩ := by
      rw [getOriginalImageFile, hlook]
      simp [hdel, hbytes, hm]
    rw [originalRoute, if_neg (by simp [hu])]
    simp only [hres, hfile, hinm]
    rw [if_neg (by simp)]
    rw [if_neg (by simp)]
    refine ⟨by simp [orJpeg, hmne], (mimeToExtOriginal m).getD "jpg",
      by simp [orJpeg, hmne], rfl, ?_⟩
    rintro (h | h | h | h) <;> subst h <;> rfl
  · intro id bytes m hu hres hget hmne hinm
    rw [download9x16Route, if_neg (by simp [hu])]
    simp only [hres, hget, hinm]
    rw [if_neg (by simp)]
    rw [if_neg (by simp)]
    refine ⟨by simp [orJpeg, hmne], (mimeToExt9x16 m).getD "jpg",
      by simp [orJpeg, hmne], rfl, ?_⟩
    rintro (h | h | h) <;> subst h <;> rfl

/-- Witness for C10's amended theorem: a png record on the original
endpoint and a jpeg rendition on the 9x16 download endpoint. -/
theorem C10_witness :
    ((originalRoute (fun _ => "d")
        ⟨fun _ => some ⟨some [1], some "image/png", false⟩⟩
        ⟨some "u1", "7".toList, none⟩).contentType = some "image/png" ∧
      ∃ ext, (originalRoute (fun _ => "d")
          ⟨fun _ => some ⟨some [1], some "image/png", false⟩⟩
          ⟨some "u1", "7".toList, none⟩).contentDisposition =
          some ("attachment; filename=\"image-" ++ toString 7 ++ "-original." ++
            ext ++ "\"") ∧
        ext = (mimeToExtOriginal "image/png").getD "jpg" ∧
        ("image/png" = "image/png" ∨ "image/png" = "image/jpeg" ∨
          "image/png" = "image/jpg" ∨ "image/png" = "image/webp" →
          extConsistent "image/png" ext = true)) ∧
    ((download9x16Route (fun _ => "d")
        (fun _ => ⟨true, none, some [3], some "image/jpeg"⟩)
        ⟨some "u1", "7".toList, none⟩).contentType = some "image/jpeg" ∧
      ∃ ext, (download9x16Route (fun _ => "d")
          (fun _ => ⟨true, none, some [3], some "image/jpeg"⟩)
          ⟨some "u1", "7".toList, none⟩).contentDisposition =
          some ("attachment; filename=\"image-" ++ toString 7 ++ "-9x16-1080x1920." ++
            ext ++ "\"") ∧
        ext = (mimeToExt9x16 "image/jpeg").getD "jpg" ∧
        ("image/jpeg" = "image/png" ∨ "image/jpeg" = "image/jpeg" ∨
          "image/jpeg" = "image/jpg" →
          extConsistent "image/jpeg" ext = true)) :=
  ⟨(C10_download_headers (fun _ => "d")
      ⟨fun _ => some ⟨some [1], some "image/png", false⟩⟩
      (fun _ => ⟨true, none, some [3], some "image/jpeg"⟩)
      ⟨some "u1", "7".toList, none⟩).1 7 ⟨some [1], some "image/png", false⟩ [1]
      "image/png" rfl (by decide) rfl rfl rfl rfl (by decide) rfl,
   (C10_download_headers (fun _ => "d")
      ⟨fun _ => some ⟨some [1], some "image/png", false⟩⟩
      (fun _ => ⟨true, none, some [3], some "image/jpeg"⟩)
      ⟨some "u1", "7".toList, none⟩).2 7 [3] "image/jpeg"
      rfl (by decide) rfl (by decide) rfl⟩

end Dispatcher
